import Mathlib

/-!
Verification of the concentrato timer core.

Shallow embedding of `src/state.rs` (the phase state machine) and the
`run_timer` loop of `src/main.rs`.  Rust `Duration` and `Instant` are
modelled as natural numbers (nanosecond counts); `Duration` comparison and
subtraction follow the Rust semantics, where subtraction of durations
panics on underflow (modelled explicitly as a `panicked` outcome).
-/

set_option maxHeartbeats 1000000

namespace Concentrato

/-- Marker phase: before any timing starts (`struct PreWork`). -/
structure PreWork where
deriving DecidableEq

/-- Timed phase: active work interval (`struct Working`), carrying
`start_time: Instant` and `working_period: Duration`. -/
structure Working where
  start_time : Nat
  working_period : Nat
deriving DecidableEq

/-- Marker phase: work interval elapsed (`struct PostWork`). -/
structure PostWork where
deriving DecidableEq

/-- Timed phase: active break interval (`struct Break`), carrying
`start_time: Instant` and `break_length: Duration`. -/
structure Break where
  start_time : Nat
  break_length : Nat
deriving DecidableEq

/-- Marker phase: break elapsed, cycle finished (`struct Complete`). -/
structure Complete where
deriving DecidableEq

/-- Rust `pub struct State<T> { state: T }` -/
structure State (T : Type) where
  state : T
deriving DecidableEq

/-- Rust `pub enum TickResult<C, T> { Continue(State<C>), Complete(State<T>) }` -/
inductive TickResult (C T : Type) where
  | Continue : State C → TickResult C T
  | Complete : State T → TickResult C T

end Concentrato

namespace Concentrato

instance {C T : Type} [DecidableEq C] [DecidableEq T] :
    DecidableEq (TickResult C T) := fun a b =>
  match a, b with
  | .Continue x, .Continue y =>
      if h : x = y then isTrue (by rw [h]) else
        isFalse (by intro hc; cases hc; exact h rfl)
  | .Complete x, .Complete y =>
      if h : x = y then isTrue (by rw [h]) else
        isFalse (by intro hc; cases hc; exact h rfl)
  | .Continue _, .Complete _ => isFalse (by intro hc; cases hc)
  | .Complete _, .Continue _ => isFalse (by intro hc; cases hc)

/-- Rust `TickResult::complete_value` from `src/state.rs`. -/
def TickResult.complete_value {C T : Type} : TickResult C T → Option (State T)
  | TickResult.Continue _ => none
  | TickResult.Complete value => some value

/-- The `TimedState<SelfState, NextState>` trait of `src/state.rs`,
implemented by `State<SelfState>`. -/
class TimedState (SelfState NextState : Type) where
  period_length : State SelfState → Nat
  start_time : State SelfState → Nat
  tick : State SelfState → Nat → TickResult SelfState NextState

/-- The `StoppableState<StopState>` trait of `src/state.rs`. -/
class StoppableState (Self : Type) (StopState : Type) where
  stop : Self → State StopState

/-- Rust `State::<PreWork>::new()`. -/
def State.new : State PreWork :=
  { state := PreWork.mk }

/-- Rust `State::<PreWork>::start_working(self, working_period, start_time)`. -/
def State.start_working (_s : State PreWork)
    (working_period : Nat) (start_time : Nat) : State Working :=
  { state := { working_period := working_period, start_time := start_time } }

/-- Rust `impl StoppableState<PreWork> for State<Working>`: `stop` returns
`State::new()`. -/
instance instStopWorking : StoppableState (State Working) PreWork where
  stop _ := State.new

/-- Rust `impl TimedState<Working, PostWork> for State<Working>`. -/
instance instTimedWorking : TimedState Working PostWork where
  period_length s := s.state.working_period
  start_time s := s.state.start_time
  tick s elapsed_time :=
    if elapsed_time < s.state.working_period then
      TickResult.Continue s
    else
      TickResult.Complete { state := PostWork.mk }

/-- Rust `State::<PostWork>::start_break(self, break_length, start_time)`. -/
def State.start_break (_s : State PostWork)
    (break_length : Nat) (start_time : Nat) : State Break :=
  { state := { break_length := break_length, start_time := start_time } }

/-- Rust `impl StoppableState<Complete> for State<Break>`. -/
instance instStopBreak : StoppableState (State Break) Complete where
  stop _ := { state := Complete.mk }

/-- Rust `impl TimedState<Break, Complete> for State<Break>`. -/
instance instTimedBreak : TimedState Break Complete where
  period_length s := s.state.break_length
  start_time s := s.state.start_time
  tick s elapsed_time :=
    if elapsed_time < s.state.break_length then
      TickResult.Continue s
    else
      TickResult.Complete { state := Complete.mk }

/-- Outcome of one `run_timer` invocation from `src/main.rs`.  `complete`
is the normal return; `fail` is a propagated callback error (`f(..)?`);
`panicked` models the Rust panic raised by `Duration` subtraction overflow
in `new_state.period_length() - start_time.elapsed()`; `outOfFuel` marks
loop iterations beyond the fuel bound of the embedding. -/
inductive RunOutcome (E T : Type) where
  | complete : State T → RunOutcome E T
  | fail : E → RunOutcome E T
  | panicked : RunOutcome E T
  | outOfFuel : RunOutcome E T

instance {E T : Type} [DecidableEq E] [DecidableEq T] :
    DecidableEq (RunOutcome E T) := fun a b =>
  match a, b with
  | .complete x, .complete y =>
      if h : x = y then isTrue (by rw [h]) else
        isFalse (by intro hc; cases hc; exact h rfl)
  | .fail x, .fail y =>
      if h : x = y then isTrue (by rw [h]) else
        isFalse (by intro hc; cases hc; exact h rfl)
  | .panicked, .panicked => isTrue rfl
  | .outOfFuel, .outOfFuel => isTrue rfl
  | .complete _, .fail _ => isFalse (by intro hc; cases hc)
  | .complete _, .panicked => isFalse (by intro hc; cases hc)
  | .complete _, .outOfFuel => isFalse (by intro hc; cases hc)
  | .fail _, .complete _ => isFalse (by intro hc; cases hc)
  | .fail _, .panicked => isFalse (by intro hc; cases hc)
  | .fail _, .outOfFuel => isFalse (by intro hc; cases hc)
  | .panicked, .complete _ => isFalse (by intro hc; cases hc)
  | .panicked, .fail _ => isFalse (by intro hc; cases hc)
  | .panicked, .outOfFuel => isFalse (by intro hc; cases hc)
  | .outOfFuel, .complete _ => isFalse (by intro hc; cases hc)
  | .outOfFuel, .fail _ => isFalse (by intro hc; cases hc)
  | .outOfFuel, .panicked => isFalse (by intro hc; cases hc)

/-- The `while let Either::Left(..)` loop body of `run_timer` in
`src/main.rs`.  `clock i` is the value of the i-th call to
`start_time.elapsed()` made after the initial one (the runner samples the
clock once per `tick` and once per remaining-time computation); `idx` is
the index of the next sample.  The trace (second component) records, in
order, every `(state, remaining)` argument pair handed to the reporting
callback `f`.  The `interval.tick().await` suspensions do not touch the
phase value and are not represented. -/
def run_timer_go {I T E : Type} [TimedState I T] (clock : Nat → Nat)
    (f : State I → Nat → Except E Unit) :
    Nat → TickResult I T → Nat → RunOutcome E T × List (State I × Nat)
  | _, TickResult.Complete value, _ => (RunOutcome.complete value, [])
  | 0, TickResult.Continue _, _ => (RunOutcome.outOfFuel, [])
  | Nat.succ fuel, TickResult.Continue new_state, idx =>
      if @TimedState.period_length I T _ new_state < clock idx then
        (RunOutcome.panicked, [])
      else
        let remaining_time :=
          @TimedState.period_length I T _ new_state - clock idx
        match f new_state remaining_time with
        | Except.error e => (RunOutcome.fail e, [(new_state, remaining_time)])
        | Except.ok _ =>
            let rest := run_timer_go clock f fuel
              (TimedState.tick new_state (clock (idx + 1))) (idx + 2)
            (rest.1, (new_state, remaining_time) :: rest.2)

/-- Rust `async fn run_timer(initial_state, interval, f)` from `src/main.rs`:
an immediate first tick with the initial elapsed reading (`clock 0`),
then the report/wait/re-tick loop.  Returns the outcome together with
the full trace of callback invocations. -/
def run_timer {I T E : Type} [TimedState I T] (fuel : Nat)
    (clock : Nat → Nat) (initial_state : State I)
    (f : State I → Nat → Except E Unit) :
    RunOutcome E T × List (State I × Nat) :=
  run_timer_go clock f fuel
    (TimedState.tick initial_state (clock 0)) 1

/-- C1: for every timed phase (Working with period P, or Break with period
P) and every elapsed duration e, tick returns Continue iff e < P, and
otherwise returns Complete carrying the correct successor marker (PostWork
for Working, Complete for Break); in particular a tick with e exactly
equal to P yields Complete, not Continue. -/
theorem tick_decision_rule :
    (∀ (s : State Working) (e : Nat),
      @TimedState.tick Working PostWork instTimedWorking s e =
        if e < @TimedState.period_length Working PostWork instTimedWorking s
        then TickResult.Continue s
        else TickResult.Complete { state := PostWork.mk }) ∧
    (∀ (s : State Break) (e : Nat),
      @TimedState.tick Break Complete instTimedBreak s e =
        if e < @TimedState.period_length Break Complete instTimedBreak s
        then TickResult.Continue s
        else TickResult.Complete { state := Complete.mk }) ∧
    (∀ (s : State Working),
      @TimedState.tick Working PostWork instTimedWorking s
          (@TimedState.period_length Working PostWork instTimedWorking s) =
        TickResult.Complete { state := PostWork.mk }) ∧
    (∀ (s : State Break),
      @TimedState.tick Break Complete instTimedBreak s
          (@TimedState.period_length Break Complete instTimedBreak s) =
        TickResult.Complete { state := Complete.mk }) := by
  refine ⟨fun s e => rfl, fun s e => rfl, fun s => ?_, fun s => ?_⟩
  · show (if s.state.working_period < s.state.working_period
        then TickResult.Continue s
        else TickResult.Complete { state := PostWork.mk }) = _
    rw [if_neg (lt_irrefl _)]
  · show (if s.state.break_length < s.state.break_length
        then TickResult.Continue s
        else TickResult.Complete { state := Complete.mk }) = _
    rw [if_neg (lt_irrefl _)]

/-- C4: for every timed phase value and every elapsed duration e with
e strictly less than the phase's period, tick returns Continue carrying
the very same phase value unchanged: same start_time, same period, and
(being literally equal) no other field introduced or modified. -/
theorem tick_continue_frame :
    (∀ (s : State Working) (e : Nat),
      e < @TimedState.period_length Working PostWork instTimedWorking s →
      ∃ s' : State Working,
        @TimedState.tick Working PostWork instTimedWorking s e =
          TickResult.Continue s' ∧
        @TimedState.start_time Working PostWork instTimedWorking s' =
          @TimedState.start_time Working PostWork instTimedWorking s ∧
        @TimedState.period_length Working PostWork instTimedWorking s' =
          @TimedState.period_length Working PostWork instTimedWorking s ∧
        s' = s) ∧
    (∀ (s : State Break) (e : Nat),
      e < @TimedState.period_length Break Complete instTimedBreak s →
      ∃ s' : State Break,
        @TimedState.tick Break Complete instTimedBreak s e =
          TickResult.Continue s' ∧
        @TimedState.start_time Break Complete instTimedBreak s' =
          @TimedState.start_time Break Complete instTimedBreak s ∧
        @TimedState.period_length Break Complete instTimedBreak s' =
          @TimedState.period_length Break Complete instTimedBreak s ∧
        s' = s) := by
  constructor
  · intro s e h
    exact ⟨s, if_pos h, rfl, rfl, rfl⟩
  · intro s e h
    exact ⟨s, if_pos h, rfl, rfl, rfl⟩

/-- Witness for C4 at the Working phase constructed with period 10 and
start time 5, ticked at elapsed time 3. -/
theorem tick_continue_frame_witness :
    ∃ s' : State Working,
      @TimedState.tick Working PostWork instTimedWorking
          (State.new.start_working 10 5) 3 = TickResult.Continue s' ∧
      @TimedState.start_time Working PostWork instTimedWorking s' =
        @TimedState.start_time Working PostWork instTimedWorking
          (State.new.start_working 10 5) ∧
      @TimedState.period_length Working PostWork instTimedWorking s' =
        @TimedState.period_length Working PostWork instTimedWorking
          (State.new.start_working 10 5) ∧
      s' = State.new.start_working 10 5 :=
  tick_continue_frame.1 (State.new.start_working 10 5) 3 (by decide)

/-- C6: stop is unconditional and total: every Working phase value stops
to PreWork (via `State::new()`), and every Break phase value stops to
Complete, regardless of start time, period or elapsed time. -/
theorem stop_unconditional :
    (∀ s : State Working,
      @StoppableState.stop (State Working) PreWork instStopWorking s =
        State.new) ∧
    (∀ s : State Break,
      @StoppableState.stop (State Break) Complete instStopBreak s =
        { state := Complete.mk }) :=
  ⟨fun _ => rfl, fun _ => rfl⟩

/-- C9: start_working on PreWork and start_break on PostWork are total
constructors whose results carry exactly the given period and start time
(duration zero included), and the stored start_time and period are never
changed afterward: the only operation returning the same timed phase type
(a Continue tick) returns a value with an identical payload. -/
theorem start_constructors :
    (∀ (p : State PreWork) (d t : Nat),
      @TimedState.period_length Working PostWork instTimedWorking
          (p.start_working d t) = d ∧
      @TimedState.start_time Working PostWork instTimedWorking
          (p.start_working d t) = t) ∧
    (∀ (q : State PostWork) (d t : Nat),
      @TimedState.period_length Break Complete instTimedBreak
          (q.start_break d t) = d ∧
      @TimedState.start_time Break Complete instTimedBreak
          (q.start_break d t) = t) ∧
    (∀ (s s' : State Working) (e : Nat),
      @TimedState.tick Working PostWork instTimedWorking s e =
        TickResult.Continue s' → s'.state = s.state) ∧
    (∀ (s s' : State Break) (e : Nat),
      @TimedState.tick Break Complete instTimedBreak s e =
        TickResult.Continue s' → s'.state = s.state) := by
  refine ⟨fun p d t => ⟨rfl, rfl⟩, fun q d t => ⟨rfl, rfl⟩, ?_, ?_⟩
  · intro s s' e h
    by_cases hc : e < s.state.working_period
    · rw [show @TimedState.tick Working PostWork instTimedWorking s e =
          TickResult.Continue s from if_pos hc] at h
      cases h
      rfl
    · rw [show @TimedState.tick Working PostWork instTimedWorking s e =
          TickResult.Complete { state := PostWork.mk } from if_neg hc] at h
      cases h
  · intro s s' e h
    by_cases hc : e < s.state.break_length
    · rw [show @TimedState.tick Break Complete instTimedBreak s e =
          TickResult.Continue s from if_pos hc] at h
      cases h
      rfl
    · rw [show @TimedState.tick Break Complete instTimedBreak s e =
          TickResult.Complete { state := Complete.mk } from if_neg hc] at h
      cases h

/-- Witness for C9: the constructor equalities at duration 7 and instant
3, and payload preservation across a concrete Continue tick. -/
theorem start_constructors_witness :
    (@TimedState.period_length Working PostWork instTimedWorking
        (State.new.start_working 7 3) = 7 ∧
      @TimedState.start_time Working PostWork instTimedWorking
        (State.new.start_working 7 3) = 3) ∧
    (State.new.start_working 7 3).state =
      (State.new.start_working 7 3).state :=
  ⟨start_constructors.1 State.new 7 3,
    start_constructors.2.2.1 (State.new.start_working 7 3)
      (State.new.start_working 7 3) 2 (by decide)⟩

/-- C10: tick is a pure deterministic function of (phase value, elapsed
time): equal inputs give equal results, and ticking the phase carried by
a Continue result again with the same elapsed time yields the same
Continue result. -/
theorem tick_pure_idempotent :
    (∀ (s1 s2 : State Working) (e1 e2 : Nat), s1 = s2 → e1 = e2 →
      @TimedState.tick Working PostWork instTimedWorking s1 e1 =
        @TimedState.tick Working PostWork instTimedWorking s2 e2) ∧
    (∀ (s s' : State Working) (e : Nat),
      @TimedState.tick Working PostWork instTimedWorking s e =
        TickResult.Continue s' →
      @TimedState.tick Working PostWork instTimedWorking s' e =
        TickResult.Continue s') ∧
    (∀ (s1 s2 : State Break) (e1 e2 : Nat), s1 = s2 → e1 = e2 →
      @TimedState.tick Break Complete instTimedBreak s1 e1 =
        @TimedState.tick Break Complete instTimedBreak s2 e2) ∧
    (∀ (s s' : State Break) (e : Nat),
      @TimedState.tick Break Complete instTimedBreak s e =
        TickResult.Continue s' →
      @TimedState.tick Break Complete instTimedBreak s' e =
        TickResult.Continue s') := by
  refine ⟨?_, ?_, ?_, ?_⟩
  · intro s1 s2 e1 e2 hs he
    rw [hs, he]
  · intro s s' e h
    have hs : s' = s := by
      by_cases hc : e < s.state.working_period
      · rw [show @TimedState.tick Working PostWork instTimedWorking s e =
            TickResult.Continue s from if_pos hc] at h
        cases h
        rfl
      · rw [show @TimedState.tick Working PostWork instTimedWorking s e =
            TickResult.Complete { state := PostWork.mk } from if_neg hc] at h
        cases h
    rw [hs] at h ⊢
    exact h
  · intro s1 s2 e1 e2 hs he
    rw [hs, he]
  · intro s s' e h
    have hs : s' = s := by
      by_cases hc : e < s.state.break_length
      · rw [show @TimedState.tick Break Complete instTimedBreak s e =
            TickResult.Continue s from if_pos hc] at h
        cases h
        rfl
      · rw [show @TimedState.tick Break Complete instTimedBreak s e =
            TickResult.Complete { state := Complete.mk } from if_neg hc] at h
        cases h
    rw [hs] at h ⊢
    exact h

/-- Witness for C10: re-ticking the Continue result of a concrete Break
tick with the same elapsed time yields the same Continue result. -/
theorem tick_pure_idempotent_witness :
    @TimedState.tick Break Complete instTimedBreak
        ((State.mk PostWork.mk).start_break 20 4) 6 =
      TickResult.Continue ((State.mk PostWork.mk).start_break 20 4) :=
  tick_pure_idempotent.2.2.2 ((State.mk PostWork.mk).start_break 20 4)
    ((State.mk PostWork.mk).start_break 20 4) 6 (by decide)

/-- A phase value of any of the five phase types, for stating properties
of the whole machine at once (the Rust encodes each phase as a distinct
type; this sum ranges over all of them). -/
inductive Phase where
  | preWork : State PreWork → Phase
  | working : State Working → Phase
  | postWork : State PostWork → Phase
  | breaking : State Break → Phase
  | complete : State Complete → Phase

/-- The phase a value belongs to, forgetting its payload. -/
inductive PhaseTag where
  | preWorkT | workingT | postWorkT | breakT | completeT
deriving DecidableEq

/-- Tag of a phase value. -/
def Phase.tag : Phase → PhaseTag
  | Phase.preWork _ => PhaseTag.preWorkT
  | Phase.working _ => PhaseTag.workingT
  | Phase.postWork _ => PhaseTag.postWorkT
  | Phase.breaking _ => PhaseTag.breakT
  | Phase.complete _ => PhaseTag.completeT

/-- One step of the machine: the transitions generated by the public
operations of `src/state.rs` (start_working, start_break, tick on either
timed phase, stop on either timed phase). -/
inductive Step : Phase → Phase → Prop where
  | startWorking (p : State PreWork) (d t : Nat) :
      Step (Phase.preWork p) (Phase.working (p.start_working d t))
  | tickWorkingCont (s s' : State Working) (e : Nat) :
      @TimedState.tick Working PostWork instTimedWorking s e =
        TickResult.Continue s' →
      Step (Phase.working s) (Phase.working s')
  | tickWorkingComp (s : State Working) (m : State PostWork) (e : Nat) :
      @TimedState.tick Working PostWork instTimedWorking s e =
        TickResult.Complete m →
      Step (Phase.working s) (Phase.postWork m)
  | stopWorking (s : State Working) :
      Step (Phase.working s)
        (Phase.preWork (@StoppableState.stop (State Working) PreWork
          instStopWorking s))
  | startBreak (q : State PostWork) (d t : Nat) :
      Step (Phase.postWork q) (Phase.breaking (q.start_break d t))
  | tickBreakCont (s s' : State Break) (e : Nat) :
      @TimedState.tick Break Complete instTimedBreak s e =
        TickResult.Continue s' →
      Step (Phase.breaking s) (Phase.breaking s')
  | tickBreakComp (s : State Break) (m : State Complete) (e : Nat) :
      @TimedState.tick Break Complete instTimedBreak s e =
        TickResult.Complete m →
      Step (Phase.breaking s) (Phase.complete m)
  | stopBreak (s : State Break) :
      Step (Phase.breaking s)
        (Phase.complete (@StoppableState.stop (State Break) Complete
          instStopBreak s))

/-- The transition pairs listed by the specification: PreWork→Working,
Working→Working, Working→PostWork, Working→PreWork, PostWork→Break,
Break→Break, Break→Complete (the last covering both the elapsed tick and
the stop edge). -/
def allowedTransition : PhaseTag → PhaseTag → Bool
  | PhaseTag.preWorkT, PhaseTag.workingT => true
  | PhaseTag.workingT, PhaseTag.workingT => true
  | PhaseTag.workingT, PhaseTag.postWorkT => true
  | PhaseTag.workingT, PhaseTag.preWorkT => true
  | PhaseTag.postWorkT, PhaseTag.breakT => true
  | PhaseTag.breakT, PhaseTag.breakT => true
  | PhaseTag.breakT, PhaseTag.completeT => true
  | _, _ => false

/-- C7: the step relation generated by all public operations produces
exactly the listed phase-to-phase transitions: every step's (source,
target) tag pair is allowed, and every allowed tag pair is realised by
some step. -/
theorem step_transitions_exact :
    (∀ p q : Phase, Step p q →
      allowedTransition (Phase.tag p) (Phase.tag q) = true) ∧
    (∀ a b : PhaseTag, allowedTransition a b = true →
      ∃ p q : Phase, Step p q ∧ Phase.tag p = a ∧ Phase.tag q = b) := by
  constructor
  · intro p q h
    cases h <;> rfl
  · intro a b h
    cases a <;> cases b <;> simp only [allowedTransition] at h <;>
      try exact absurd h (by decide)
    · exact ⟨Phase.preWork State.new,
        Phase.working (State.new.start_working 5 0),
        Step.startWorking State.new 5 0, rfl, rfl⟩
    · refine ⟨Phase.working (State.new.start_working 5 0),
        Phase.preWork (@StoppableState.stop (State Working) PreWork
          instStopWorking (State.new.start_working 5 0)),
        Step.stopWorking (State.new.start_working 5 0), rfl, rfl⟩
    · exact ⟨Phase.working (State.new.start_working 5 0),
        Phase.working (State.new.start_working 5 0),
        Step.tickWorkingCont (State.new.start_working 5 0)
          (State.new.start_working 5 0) 2 (by decide), rfl, rfl⟩
    · exact ⟨Phase.working (State.new.start_working 5 0),
        Phase.postWork (State.mk PostWork.mk),
        Step.tickWorkingComp (State.new.start_working 5 0)
          (State.mk PostWork.mk) 5 (by decide), rfl, rfl⟩
    · exact ⟨Phase.postWork (State.mk PostWork.mk),
        Phase.breaking ((State.mk PostWork.mk).start_break 5 0),
        Step.startBreak (State.mk PostWork.mk) 5 0, rfl, rfl⟩
    · exact ⟨Phase.breaking ((State.mk PostWork.mk).start_break 5 0),
        Phase.breaking ((State.mk PostWork.mk).start_break 5 0),
        Step.tickBreakCont ((State.mk PostWork.mk).start_break 5 0)
          ((State.mk PostWork.mk).start_break 5 0) 2 (by decide), rfl, rfl⟩
    · exact ⟨Phase.breaking ((State.mk PostWork.mk).start_break 5 0),
        Phase.complete (State.mk Complete.mk),
        Step.tickBreakComp ((State.mk PostWork.mk).start_break 5 0)
          (State.mk Complete.mk) 5 (by decide), rfl, rfl⟩

/-- Witness for C7: the allowed-transition table holds for the concrete
step taking PreWork to a started Working phase. -/
theorem step_transitions_exact_witness :
    allowedTransition
        (Phase.tag (Phase.preWork State.new))
        (Phase.tag (Phase.working (State.new.start_working 9 1))) = true :=
  step_transitions_exact.1 (Phase.preWork State.new)
    (Phase.working (State.new.start_working 9 1))
    (Step.startWorking State.new 9 1)

/-- The callback-invocation trace predicted for a run that stays on phase
value `s` with period `P`: starting at clock-sample index `idx`, `n`
invocations, each reporting `P` minus the remaining-time clock sample,
with two samples consumed per loop iteration. -/
def reportTrace {I : Type} (clock : Nat → Nat) (s : State I) (P : Nat) :
    Nat → Nat → List (State I × Nat)
  | _, 0 => []
  | idx, Nat.succ n => (s, P - clock idx) :: reportTrace clock s P (idx + 2) n

/-- Closed form of the `run_timer` loop on a phase value `s` whose ticks
return `Continue s` strictly below period `P` and `Complete c` at or above
it: if the loop's tick samples stay below `P` for `n` iterations, the
remaining-time samples never exceed `P`, the sample after the n-th
iteration reaches `P`, and there is enough fuel, the loop completes with
`c` and reports exactly `n + 1` times. -/
theorem run_timer_go_closed {I T E : Type} [inst : TimedState I T]
    (clock : Nat → Nat) (f : State I → Nat → Except E Unit)
    (s : State I) (c : State T) (P : Nat)
    (hP : @TimedState.period_length I T inst s = P)
    (hf : ∀ a b, f a b = Except.ok ())
    (htlt : ∀ e, e < P →
      @TimedState.tick I T inst s e = TickResult.Continue s)
    (htge : ∀ e, P ≤ e →
      @TimedState.tick I T inst s e = TickResult.Complete c) :
    ∀ (n idx fuel : Nat),
      (∀ j, j < n → clock (idx + 2 * j + 1) < P) →
      P ≤ clock (idx + 2 * n + 1) →
      (∀ j, j ≤ n → clock (idx + 2 * j) ≤ P) →
      n + 1 ≤ fuel →
      run_timer_go clock f fuel (TickResult.Continue s) idx =
        (RunOutcome.complete c, reportTrace clock s P idx (n + 1)) := by
  intro n
  induction n with
  | zero =>
    intro idx fuel h1 h2 h3 hfuel
    match fuel, hfuel with
    | Nat.succ m, _ =>
      have hno : ¬ (P < clock idx) := by
        have := h3 0 (Nat.le_refl 0)
        simpa using Nat.not_lt.mpr this
      have hcize : @TimedState.tick I T inst s (clock (idx + 1)) =
          TickResult.Complete c := by
        apply htge
        simpa using h2
      simp only [run_timer_go, hP, if_neg hno, hf, hcize, reportTrace]
  | succ k ih =>
    intro idx fuel h1 h2 h3 hfuel
    match fuel, hfuel with
    | Nat.succ m, hfuel =>
      have hno : ¬ (P < clock idx) := by
        have := h3 0 (Nat.zero_le _)
        simpa using Nat.not_lt.mpr this
      have hcont : @TimedState.tick I T inst s (clock (idx + 1)) =
          TickResult.Continue s := by
        apply htlt
        simpa using h1 0 (Nat.succ_pos k)
      have hrec := ih (idx + 2) m
        (fun j hj => by
          have := h1 (j + 1) (Nat.succ_lt_succ hj)
          have harith : idx + 2 * (j + 1) + 1 = idx + 2 + 2 * j + 1 := by omega
          rwa [harith] at this)
        (by
          have harith : idx + 2 * (k + 1) + 1 = idx + 2 + 2 * k + 1 := by omega
          rwa [harith] at h2)
        (fun j hj => by
          have := h3 (j + 1) (Nat.succ_le_succ hj)
          have harith : idx + 2 * (j + 1) = idx + 2 + 2 * j := by omega
          rwa [harith] at this)
        (Nat.lt_succ_iff.mp hfuel)
      simp only [run_timer_go, hP, if_neg hno, hf, hcont, hrec, reportTrace]

/-- C2: a run over a timed phase returns the marker carried by the first
Complete tick, and the report callback is invoked exactly once per
Continue tick (trace `reportTrace … n` for `n` Continue results, one
entry per invocation) and never after the Complete tick.  The clock
samples at even indices feed the ticks, those at odd indices feed the
remaining-time computation; `n` is the index of the first tick sample
reaching the period. -/
theorem run_returns_first_complete :
    (∀ {E : Type} (fuel n : Nat) (clock : Nat → Nat) (s : State Working)
        (f : State Working → Nat → Except E Unit),
      (∀ a b, f a b = Except.ok ()) →
      (∀ j, j < n →
        clock (2 * j) < @TimedState.period_length Working PostWork
          instTimedWorking s) →
      @TimedState.period_length Working PostWork instTimedWorking s ≤
        clock (2 * n) →
      (∀ j, j < n →
        clock (2 * j + 1) ≤ @TimedState.period_length Working PostWork
          instTimedWorking s) →
      n ≤ fuel →
      @run_timer Working PostWork E instTimedWorking fuel clock s f =
        (RunOutcome.complete (State.mk PostWork.mk),
          reportTrace clock s
            (@TimedState.period_length Working PostWork instTimedWorking s)
            1 n)) ∧
    (∀ {E : Type} (fuel n : Nat) (clock : Nat → Nat) (s : State Break)
        (f : State Break → Nat → Except E Unit),
      (∀ a b, f a b = Except.ok ()) →
      (∀ j, j < n →
        clock (2 * j) < @TimedState.period_length Break Complete
          instTimedBreak s) →
      @TimedState.period_length Break Complete instTimedBreak s ≤
        clock (2 * n) →
      (∀ j, j < n →
        clock (2 * j + 1) ≤ @TimedState.period_length Break Complete
          instTimedBreak s) →
      n ≤ fuel →
      @run_timer Break Complete E instTimedBreak fuel clock s f =
        (RunOutcome.complete (State.mk Complete.mk),
          reportTrace clock s
            (@TimedState.period_length Break Complete instTimedBreak s)
            1 n)) := by
  constructor
  · intro E fuel n clock s f hf h1 h2 h3 hfuel
    match n with
    | 0 =>
      have htick : @TimedState.tick Working PostWork instTimedWorking s
          (clock 0) = TickResult.Complete (State.mk PostWork.mk) := by
        have : ¬ (clock 0 < s.state.working_period) := by
          simpa using Nat.not_lt.mpr h2
        exact if_neg this
      show run_timer_go clock f fuel
          (@TimedState.tick Working PostWork instTimedWorking s (clock 0))
          1 = _
      rw [htick]
      cases fuel <;> rfl
    | Nat.succ k =>
      have htick : @TimedState.tick Working PostWork instTimedWorking s
          (clock 0) = TickResult.Continue s := by
        exact if_pos (by simpa using h1 0 (Nat.succ_pos k))
      show run_timer_go clock f fuel
          (@TimedState.tick Working PostWork instTimedWorking s (clock 0))
          1 = _
      rw [htick]
      exact run_timer_go_closed clock f s (State.mk PostWork.mk)
        s.state.working_period rfl hf
        (fun e he => if_pos he)
        (fun e he => if_neg (Nat.not_lt.mpr he))
        k 1 fuel
        (fun j hj => by
          have := h1 (j + 1) (Nat.succ_lt_succ hj)
          have harith : 2 * (j + 1) = 1 + 2 * j + 1 := by omega
          rwa [harith] at this)
        (by
          have harith : 2 * (k + 1) = 1 + 2 * k + 1 := by omega
          rwa [harith] at h2)
        (fun j hj => by
          have := h3 j (Nat.lt_succ_of_le hj)
          have harith : 2 * j + 1 = 1 + 2 * j := by omega
          rwa [harith] at this)
        hfuel
  · intro E fuel n clock s f hf h1 h2 h3 hfuel
    match n with
    | 0 =>
      have htick : @TimedState.tick Break Complete instTimedBreak s
          (clock 0) = TickResult.Complete (State.mk Complete.mk) := by
        have : ¬ (clock 0 < s.state.break_length) := by
          simpa using Nat.not_lt.mpr h2
        exact if_neg this
      show run_timer_go clock f fuel
          (@TimedState.tick Break Complete instTimedBreak s (clock 0))
          1 = _
      rw [htick]
      cases fuel <;> rfl
    | Nat.succ k =>
      have htick : @TimedState.tick Break Complete instTimedBreak s
          (clock 0) = TickResult.Continue s := by
        exact if_pos (by simpa using h1 0 (Nat.succ_pos k))
      show run_timer_go clock f fuel
          (@TimedState.tick Break Complete instTimedBreak s (clock 0))
          1 = _
      rw [htick]
      exact run_timer_go_closed clock f s (State.mk Complete.mk)
        s.state.break_length rfl hf
        (fun e he => if_pos he)
        (fun e he => if_neg (Nat.not_lt.mpr he))
        k 1 fuel
        (fun j hj => by
          have := h1 (j + 1) (Nat.succ_lt_succ hj)
          have harith : 2 * (j + 1) = 1 + 2 * j + 1 := by omega
          rwa [harith] at this)
        (by
          have harith : 2 * (k + 1) = 1 + 2 * k + 1 := by omega
          rwa [harith] at h2)
        (fun j hj => by
          have := h3 j (Nat.lt_succ_of_le hj)
          have harith : 2 * j + 1 = 1 + 2 * j := by omega
          rwa [harith] at this)
        hfuel

/-- Witness for C2: the spec's 2000ms phase sampled by a clock advancing
500ms per sample completes with PostWork after exactly two callback
invocations, reporting 1500 then 500. -/
theorem run_returns_first_complete_witness :
    @run_timer Working PostWork Unit instTimedWorking 10 (fun i => 500 * i)
        (State.new.start_working 2000 0) (fun _ _ => Except.ok ()) =
      (RunOutcome.complete (State.mk PostWork.mk),
        [(State.new.start_working 2000 0, 1500),
          (State.new.start_working 2000 0, 500)]) := by
  have h := run_returns_first_complete.1 10 2 (fun i => 500 * i)
    (State.new.start_working 2000 0)
    (fun _ _ => (Except.ok () : Except Unit Unit))
    (fun _ _ => rfl)
    (fun j hj => by show 500 * (2 * j) < 2000; omega)
    (by show 2000 ≤ 500 * (2 * 2); omega)
    (fun j hj => by show 500 * (2 * j + 1) ≤ 2000; omega)
    (by omega)
  simpa [reportTrace] using h

/-- If the `run_timer` loop returns a callback failure, the trace of
callback invocations is non-empty, its last invocation is the one that
produced exactly that error, and every earlier invocation succeeded: the
loop performed no further tick or callback after the failure. -/
theorem run_timer_go_fail {I T E : Type} [inst : TimedState I T]
    (clock : Nat → Nat) (f : State I → Nat → Except E Unit) :
    ∀ (fuel : Nat) (r : TickResult I T) (idx : Nat) (e : E)
      (tr : List (State I × Nat)),
      run_timer_go clock f fuel r idx = (RunOutcome.fail e, tr) →
      ∃ pre last, tr = pre ++ [last] ∧ f last.1 last.2 = Except.error e ∧
        ∀ x ∈ pre, f x.1 x.2 = Except.ok () := by
  intro fuel
  induction fuel with
  | zero =>
    intro r idx e tr h
    cases r with
    | Complete value => simp [run_timer_go] at h
    | Continue s => simp [run_timer_go] at h
  | succ m ih =>
    intro r idx e tr h
    cases r with
    | Complete value => simp [run_timer_go] at h
    | Continue s =>
      rw [run_timer_go] at h
      split at h
      · simp at h
      · dsimp only at h
        cases hfr : f s (@TimedState.period_length I T inst s - clock idx)
          with
        | error e2 =>
          rw [hfr] at h
          simp only [Prod.mk.injEq] at h
          obtain ⟨h1, h2⟩ := h
          cases h1
          exact ⟨[], (s, @TimedState.period_length I T inst s - clock idx),
            by simpa using h2.symm, hfr, by simp⟩
        | ok u =>
          rw [hfr] at h
          simp only [Prod.mk.injEq] at h
          obtain ⟨h1, h2⟩ := h
          obtain ⟨pre, last, htr, hlast, hpre⟩ :=
            ih (TimedState.tick s (clock (idx + 1))) (idx + 2) e
              (run_timer_go clock f m
                (TimedState.tick s (clock (idx + 1))) (idx + 2)).2
              (by rw [← h1])
          refine ⟨(s, @TimedState.period_length I T inst s - clock idx) ::
            pre, last, ?_, hlast, ?_⟩
          · rw [← h2, htr]
            rfl
          · intro x hx
            rcases List.mem_cons.mp hx with hx1 | hx2
            · rw [hx1]
              exact hfr
            · exact hpre x hx2

/-- C3: if the report callback fails on some invocation, run stops
immediately — the failing invocation is the last entry of the trace, all
earlier invocations succeeded, and no further callback (or tick feeding
one) happens — and the run returns that failure instead of a completed
marker phase. -/
theorem run_fail_propagates :
    (∀ {E : Type} (fuel : Nat) (clock : Nat → Nat) (s : State Working)
        (f : State Working → Nat → Except E Unit) (e : E)
        (tr : List (State Working × Nat)),
      @run_timer Working PostWork E instTimedWorking fuel clock s f =
        (RunOutcome.fail e, tr) →
      ∃ pre last, tr = pre ++ [last] ∧ f last.1 last.2 = Except.error e ∧
        ∀ x ∈ pre, f x.1 x.2 = Except.ok ()) ∧
    (∀ {E : Type} (fuel : Nat) (clock : Nat → Nat) (s : State Break)
        (f : State Break → Nat → Except E Unit) (e : E)
        (tr : List (State Break × Nat)),
      @run_timer Break Complete E instTimedBreak fuel clock s f =
        (RunOutcome.fail e, tr) →
      ∃ pre last, tr = pre ++ [last] ∧ f last.1 last.2 = Except.error e ∧
        ∀ x ∈ pre, f x.1 x.2 = Except.ok ()) :=
  ⟨fun fuel clock _s f e tr h =>
    run_timer_go_fail clock f fuel _ 1 e tr h,
  fun fuel clock _s f e tr h =>
    run_timer_go_fail clock f fuel _ 1 e tr h⟩

/-- Witness for C3: the spec's always-failing callback makes a concrete
run fail on the very first invocation. -/
theorem run_fail_propagates_witness :
    ∃ pre last,
      [(State.new.start_working 10 0, (9 : Nat))] = pre ++ [last] ∧
      (fun (_ : State Working) (_ : Nat) =>
          (Except.error 42 : Except Nat Unit)) last.1 last.2 =
        Except.error 42 ∧
      ∀ x ∈ pre,
        (fun (_ : State Working) (_ : Nat) =>
          (Except.error 42 : Except Nat Unit)) x.1 x.2 = Except.ok () :=
  run_fail_propagates.1 5 (fun i => i) (State.new.start_working 10 0)
    (fun _ _ => (Except.error 42 : Except Nat Unit)) 42
    [(State.new.start_working 10 0, 9)] (by decide)

/-- Counterexample for C5: a run in which the tick at elapsed time 0
returns Continue (0 < period 2000), but the fresh elapsed sample taken
immediately afterwards for the remaining-time computation is 2500, so the
subtraction `period_length() - elapsed` underflows: the Rust `Duration`
subtraction panics (the `panicked` outcome) before any callback runs. -/
theorem remaining_underflow_cex :
    @run_timer Working PostWork Unit instTimedWorking 10 (fun i => 2500 * i)
        (State.new.start_working 2000 0) (fun _ _ => Except.ok ()) =
      (RunOutcome.panicked, []) := by decide

/-- The `run_timer` loop never reaches the `panicked` outcome when every
remaining-time clock sample from index `idx` onwards (stepping by two) is
at most the period of the carried phase value, provided Continue ticks
carry the phase value unchanged. -/
theorem run_timer_go_no_panic {I T E : Type} [inst : TimedState I T]
    (clock : Nat → Nat) (f : State I → Nat → Except E Unit)
    (s : State I) (P : Nat)
    (hP : @TimedState.period_length I T inst s = P)
    (hcont : ∀ e s', @TimedState.tick I T inst s e =
      TickResult.Continue s' → s' = s) :
    ∀ (fuel idx : Nat),
      (∀ k, clock (idx + 2 * k) ≤ P) →
      (@run_timer_go I T E inst clock f fuel
        (TickResult.Continue s) idx).1 ≠ RunOutcome.panicked := by
  intro fuel
  induction fuel with
  | zero =>
    intro idx hk
    have hz : @run_timer_go I T E inst clock f 0
        (TickResult.Continue s) idx =
        ((RunOutcome.outOfFuel : RunOutcome E T), []) := rfl
    rw [hz]
    intro hcon
    cases hcon
  | succ m ih =>
    intro idx hk
    have hno : ¬ (P < clock idx) := by
      have := hk 0
      simpa using Nat.not_lt.mpr (by simpa using this)
    rw [run_timer_go, hP, if_neg hno]
    dsimp only
    cases hfr : f s (P - clock idx) with
    | error e => simp
    | ok u =>
      cases ht : @TimedState.tick I T inst s (clock (idx + 1)) with
      | Continue s2 =>
        have hs2 : s2 = s := hcont _ _ ht
        subst hs2
        have := ih (idx + 2) (fun k => by
          have := hk (k + 1)
          have harith : idx + 2 * (k + 1) = idx + 2 + 2 * k := by omega
          rwa [harith] at this)
        simpa [ht] using this
      | Complete c =>
        simp [ht, run_timer_go]

/-- C5 (amended): for every Continue result inside run, the remaining
time handed to the report callback (period length minus the fresh elapsed
sample) is well-defined and non-negative — the subtraction never
underflows — provided each fresh elapsed sample used for the subtraction
(the odd-indexed clock samples) is at most the phase period; without that
proviso the subtraction can underflow and the program panics. -/
theorem remaining_no_underflow_amended :
    (∀ {E : Type} (fuel : Nat) (clock : Nat → Nat) (s : State Working)
        (f : State Working → Nat → Except E Unit),
      (∀ k, clock (2 * k + 1) ≤
        @TimedState.period_length Working PostWork instTimedWorking s) →
      (@run_timer Working PostWork E instTimedWorking fuel clock s f).1 ≠
        RunOutcome.panicked) ∧
    (∀ {E : Type} (fuel : Nat) (clock : Nat → Nat) (s : State Break)
        (f : State Break → Nat → Except E Unit),
      (∀ k, clock (2 * k + 1) ≤
        @TimedState.period_length Break Complete instTimedBreak s) →
      (@run_timer Break Complete E instTimedBreak fuel clock s f).1 ≠
        RunOutcome.panicked) := by
  constructor
  · intro E fuel clock s f hk
    show (run_timer_go clock f fuel
      (@TimedState.tick Working PostWork instTimedWorking s (clock 0))
      1).1 ≠ RunOutcome.panicked
    cases ht : @TimedState.tick Working PostWork instTimedWorking s
        (clock 0) with
    | Continue s2 =>
      have hs2 : s2 = s := by
        by_cases hc : clock 0 < s.state.working_period
        · rw [show @TimedState.tick Working PostWork instTimedWorking s
              (clock 0) = TickResult.Continue s from if_pos hc] at ht
          cases ht
          rfl
        · rw [show @TimedState.tick Working PostWork instTimedWorking s
              (clock 0) = TickResult.Complete (State.mk PostWork.mk) from
              if_neg hc] at ht
          cases ht
      subst hs2
      exact run_timer_go_no_panic clock f s2 s2.state.working_period rfl
        (fun e s3 h3 => by
          by_cases hc : e < s2.state.working_period
          · rw [show @TimedState.tick Working PostWork instTimedWorking s2
                e = TickResult.Continue s2 from if_pos hc] at h3
            cases h3
            rfl
          · rw [show @TimedState.tick Working PostWork instTimedWorking s2
                e = TickResult.Complete (State.mk PostWork.mk) from
                if_neg hc] at h3
            cases h3)
        fuel 1
        (fun k => by
          have := hk k
          have harith : 2 * k + 1 = 1 + 2 * k := by omega
          rwa [harith] at this)
    | Complete c =>
      simp [run_timer_go]
  · intro E fuel clock s f hk
    show (run_timer_go clock f fuel
      (@TimedState.tick Break Complete instTimedBreak s (clock 0))
      1).1 ≠ RunOutcome.panicked
    cases ht : @TimedState.tick Break Complete instTimedBreak s
        (clock 0) with
    | Continue s2 =>
      have hs2 : s2 = s := by
        by_cases hc : clock 0 < s.state.break_length
        · rw [show @TimedState.tick Break Complete instTimedBreak s
              (clock 0) = TickResult.Continue s from if_pos hc] at ht
          cases ht
          rfl
        · rw [show @TimedState.tick Break Complete instTimedBreak s
              (clock 0) = TickResult.Complete (State.mk Complete.mk) from
              if_neg hc] at ht
          cases ht
      subst hs2
      exact run_timer_go_no_panic clock f s2 s2.state.break_length rfl
        (fun e s3 h3 => by
          by_cases hc : e < s2.state.break_length
          · rw [show @TimedState.tick Break Complete instTimedBreak s2
                e = TickResult.Continue s2 from if_pos hc] at h3
            cases h3
            rfl
          · rw [show @TimedState.tick Break Complete instTimedBreak s2
                e = TickResult.Complete (State.mk Complete.mk) from
                if_neg hc] at h3
            cases h3)
        fuel 1
        (fun k => by
          have := hk k
          have harith : 2 * k + 1 = 1 + 2 * k := by omega
          rwa [harith] at this)
    | Complete c =>
      simp [run_timer_go]

/-- Witness for C5 (amended): a clock capped at the period never drives a
concrete run into the underflow panic. -/
theorem remaining_no_underflow_amended_witness :
    (@run_timer Working PostWork Unit instTimedWorking 10
        (fun i => min i 10) (State.new.start_working 10 0)
        (fun _ _ => Except.ok ())).1 ≠ RunOutcome.panicked :=
  remaining_no_underflow_amended.1 10 (fun i => min i 10)
    (State.new.start_working 10 0) (fun _ _ => Except.ok ())
    (fun _ => Nat.min_le_right _ _)

/-- C8: a timed phase whose period length is zero completes via the
immediate initial tick: run returns the Complete successor marker with an
empty callback trace (zero invocations, hence never more than one),
regardless of fuel, clock or callback. -/
theorem run_zero_period_immediate :
    (∀ {E : Type} (fuel : Nat) (clock : Nat → Nat) (s : State Working)
        (f : State Working → Nat → Except E Unit),
      @TimedState.period_length Working PostWork instTimedWorking s = 0 →
      @run_timer Working PostWork E instTimedWorking fuel clock s f =
        (RunOutcome.complete (State.mk PostWork.mk), [])) ∧
    (∀ {E : Type} (fuel : Nat) (clock : Nat → Nat) (s : State Break)
        (f : State Break → Nat → Except E Unit),
      @TimedState.period_length Break Complete instTimedBreak s = 0 →
      @run_timer Break Complete E instTimedBreak fuel clock s f =
        (RunOutcome.complete (State.mk Complete.mk), [])) := by
  constructor
  · intro E fuel clock s f hP
    have htick : @TimedState.tick Working PostWork instTimedWorking s
        (clock 0) = TickResult.Complete (State.mk PostWork.mk) := by
      have h0 : s.state.working_period = 0 := hP
      exact if_neg (by rw [h0]; exact Nat.not_lt_zero _)
    show run_timer_go clock f fuel
        (@TimedState.tick Working PostWork instTimedWorking s (clock 0))
        1 = _
    rw [htick]
    cases fuel <;> rfl
  · intro E fuel clock s f hP
    have htick : @TimedState.tick Break Complete instTimedBreak s
        (clock 0) = TickResult.Complete (State.mk Complete.mk) := by
      have h0 : s.state.break_length = 0 := hP
      exact if_neg (by rw [h0]; exact Nat.not_lt_zero _)
    show run_timer_go clock f fuel
        (@TimedState.tick Break Complete instTimedBreak s (clock 0))
        1 = _
    rw [htick]
    cases fuel <;> rfl

/-- Witness for C8: a zero-period Working phase completes at once with no
callback invocation. -/
theorem run_zero_period_immediate_witness :
    @run_timer Working PostWork Unit instTimedWorking 5 (fun i => i)
        (State.new.start_working 0 7) (fun _ _ => Except.ok ()) =
      (RunOutcome.complete (State.mk PostWork.mk), []) :=
  run_zero_period_immediate.1 5 (fun i => i)
    (State.new.start_working 0 7) (fun _ _ => Except.ok ()) rfl

end Concentrato
